import Mathlib

/-!
Verification of the PDB regression notebook
(`regression/notebooks/extras/notebook_ex_neural_network_pdb.ipynb`).

Modelling conventions.  Python strings are lists of characters (`PyStr`),
Python exceptions are the inductive `PyErr`, and every fallible Python
expression is embedded in `Except PyErr`.  Floating-point arithmetic is
modelled exactly over `ℚ`, except that the NumPy quotient `0.0 / 0`
arising in `char_to_float` on an empty token list is modelled by the
explicit `PyFloat.nan` value: NumPy emits a `RuntimeWarning` and yields
NaN there, it does not raise.  `Char.isAlpha` and `Char.isWhitespace`
model the ASCII fragment of the corresponding Unicode-aware Python
predicates, which covers every space-group label in the dataset.
-/

/-- The Python exceptions the notebook code can raise. -/
inductive PyErr where
  | keyError
  | indexError
  | typeError
  | valueError
  | attributeError
  deriving DecidableEq

/-- A NumPy double: NaN or an exact value (rounding is abstracted away). -/
inductive PyFloat where
  | nan
  | val (q : ℚ)
  deriving DecidableEq

instance {ε α : Type} [DecidableEq ε] [DecidableEq α] : DecidableEq (Except ε α) := fun x y =>
  match x, y with
  | .ok a, .ok b =>
    if h : a = b then .isTrue (by rw [h]) else .isFalse (by intro hh; cases hh; exact h rfl)
  | .error e, .error f =>
    if h : e = f then .isTrue (by rw [h]) else .isFalse (by intro hh; cases hh; exact h rfl)
  | .ok _, .error _ => .isFalse (by intro hh; cases hh)
  | .error _, .ok _ => .isFalse (by intro hh; cases hh)

/-- A Python string, modelled as its list of characters. -/
abbrev PyStr := List Char

def pstr (s : String) : PyStr := s.toList

/-- Python `s.isalpha()` (ASCII fragment): nonempty and all alphabetic. -/
def pyIsAlpha (t : PyStr) : Bool := !t.isEmpty && t.all Char.isAlpha

/-- Python `ord`: defined on one-character strings, `TypeError` otherwise. -/
def pyOrd (t : PyStr) : Except PyErr Nat :=
  match t with
  | [c] => .ok c.toNat
  | _ => .error .typeError

/-- Value of a run of decimal digits, most significant first. -/
def digitsToNat (cs : List Char) : Nat :=
  cs.foldl (fun a c => 10 * a + (c.toNat - 48)) 0

/-- Exponent suffix of a Python float literal (`e`/`E` already consumed). -/
def expValue (cs : PyStr) : Option Int :=
  match cs with
  | [] => none
  | '+' :: ds => if !ds.isEmpty && ds.all Char.isDigit then some (digitsToNat ds) else none
  | '-' :: ds => if !ds.isEmpty && ds.all Char.isDigit then some (-(digitsToNat ds : Int)) else none
  | ds => if ds.all Char.isDigit then some (digitsToNat ds) else none

/-- Rest of a float literal after the mantissa: empty or an exponent. -/
def mantRest (m : ℚ) (r : PyStr) : Option ℚ :=
  match r with
  | [] => some m
  | c :: r4 =>
    if c = 'e' ∨ c = 'E' then (expValue r4).map (fun k => m * (10 : ℚ) ^ k) else none

/-- Unsigned part of Python `float(str)`: `digits [. digits] [exponent]`.
(The special forms `inf`/`nan`/underscores and surrounding whitespace,
which no token of the dataset exercises, are not modelled and are
rejected.) -/
def pyFloatCore (cs : PyStr) : Option ℚ :=
  match cs.dropWhile Char.isDigit with
  | '.' :: r2 =>
    if (cs.takeWhile Char.isDigit).isEmpty && (r2.takeWhile Char.isDigit).isEmpty then none
    else
      mantRest ((digitsToNat (cs.takeWhile Char.isDigit) : ℚ) +
          (digitsToNat (r2.takeWhile Char.isDigit) : ℚ) /
            (10 : ℚ) ^ (r2.takeWhile Char.isDigit).length)
        (r2.dropWhile Char.isDigit)
  | r1 =>
    if (cs.takeWhile Char.isDigit).isEmpty then none
    else mantRest (digitsToNat (cs.takeWhile Char.isDigit)) r1

/-- Optional sign in front of a float literal. -/
def pyFloatSigned (t : PyStr) : Option ℚ :=
  match t with
  | [] => none
  | c :: rest =>
    if c = '+' then pyFloatCore rest
    else if c = '-' then (pyFloatCore rest).map Neg.neg
    else pyFloatCore (c :: rest)

/-- Python `float(str)`: parse or raise `ValueError`. -/
def pyFloatParse (t : PyStr) : Except PyErr ℚ :=
  match pyFloatSigned t with
  | some q => .ok q
  | none => .error .valueError

/-- Python `s.split()`: split on whitespace runs, dropping empty tokens.
`acc` holds the characters of the current token, reversed. -/
def tokensAux : List Char → List Char → List PyStr
  | [], acc => if acc.isEmpty then [] else [acc.reverse]
  | c :: cs, acc =>
    if c.isWhitespace then
      if acc.isEmpty then tokensAux cs [] else acc.reverse :: tokensAux cs []
    else tokensAux cs (c :: acc)

def tokens (s : PyStr) : List PyStr := tokensAux s []

/-- One iteration of the `char_to_float` loop body on token `parts[i]`:
`float(ord(parts[i]))/100` for an alphabetic token, `float(parts[i])`
otherwise. -/
def convToken (t : PyStr) : Except PyErr ℚ :=
  if pyIsAlpha t then
    match pyOrd t with
    | .ok n => .ok ((n : ℚ) / 100)
    | .error e => .error e
  else pyFloatParse t

/-- The whole `for i in range(len(parts))` loop: convert the tokens left
to right, propagating the first exception. -/
def convTokens : List PyStr → Except PyErr (List ℚ)
  | [] => .ok []
  | t :: ts =>
    match convToken t with
    | .error e => .error e
    | .ok v =>
      match convTokens ts with
      | .error e => .error e
      | .ok vs => .ok (v :: vs)

/-- `char_to_float` from the notebook: split, convert every token, return
`np.sum(parts)/len(parts)` — NaN when there is no token (`0.0 / 0`). -/
def char_to_float (s : PyStr) : Except PyErr PyFloat :=
  match convTokens (tokens s) with
  | .error e => .error e
  | .ok vs => .ok (if vs.isEmpty then .nan else .val (vs.sum / (vs.length : ℚ)))

example : char_to_float (pstr "") = .ok .nan := by decide
example : char_to_float (pstr "AB") = .error .typeError := by decide
example : pyFloatParse (pstr "x1") = .error .valueError := by decide
example : tokens (pstr " P 21  c ") = [pstr "P", pstr "21", pstr "c"] := by decide

/-- A decimal numeral: digits, optionally with a decimal point. -/
def isDecNumeral (t : PyStr) : Bool :=
  match t.dropWhile Char.isDigit with
  | [] => !(t.takeWhile Char.isDigit).isEmpty
  | '.' :: fp => fp.all Char.isDigit && (!(t.takeWhile Char.isDigit).isEmpty || !fp.isEmpty)
  | _ => false

/-- Numeric value of a decimal numeral. -/
def numeralVal (t : PyStr) : ℚ :=
  match t.dropWhile Char.isDigit with
  | '.' :: fp =>
    (digitsToNat (t.takeWhile Char.isDigit) : ℚ) + (digitsToNat fp : ℚ) / (10 : ℚ) ^ fp.length
  | _ => (digitsToNat (t.takeWhile Char.isDigit) : ℚ)

/-- Value the spec assigns to a token: scaled character code for an
alphabetic token, numeric value otherwise. -/
def tokenVal (t : PyStr) : ℚ :=
  if pyIsAlpha t then ((t.headD 'A').toNat : ℚ) / 100 else numeralVal t

/-- A token on which `char_to_float` is well defined: a single alphabetic
character, or a decimal numeral. -/
def goodToken (t : PyStr) : Prop :=
  (pyIsAlpha t = true ∧ t.length = 1) ∨ isDecNumeral t = true

instance (t : PyStr) : Decidable (goodToken t) := by
  unfold goodToken; infer_instance

theorem isDigit_not_alpha {c : Char} (h : c.isDigit = true) : c.isAlpha = false := by
  simp only [Char.isDigit, ge_iff_le, Bool.and_eq_true, decide_eq_true_eq] at h
  simp only [Char.isAlpha, Char.isUpper, Char.isLower, ge_iff_le, Bool.or_eq_false_iff,
    Bool.and_eq_false_iff, decide_eq_false_iff_not, not_le]
  obtain ⟨h1, h2⟩ := h
  rw [UInt32.le_def, BitVec.le_def] at h1 h2
  have e48 : (UInt32.toBitVec 48).toNat = 48 := rfl
  have e57 : (UInt32.toBitVec 57).toNat = 57 := rfl
  rw [e48] at h1
  rw [e57] at h2
  constructor
  · left
    rw [UInt32.le_def, BitVec.le_def]
    have e65 : (UInt32.toBitVec 65).toNat = 65 := rfl
    rw [e65]
    omega
  · left
    rw [UInt32.le_def, BitVec.le_def]
    have e97 : (UInt32.toBitVec 97).toNat = 97 := rfl
    rw [e97]
    omega

theorem isDigit_ne_of_not {c d : Char} (hd : d.isDigit = false) (h : c.isDigit = true) :
    c ≠ d := by
  intro he; rw [he, hd] at h; cases h

theorem takeWhile_all {p : Char → Bool} (l : List Char) (h : l.all p = true) :
    l.takeWhile p = l :=
  List.takeWhile_eq_self_iff.mpr (by simpa [List.all_eq_true] using h)

theorem dropWhile_all {p : Char → Bool} (l : List Char) (h : l.all p = true) :
    l.dropWhile p = [] :=
  List.dropWhile_eq_nil_iff.mpr (by simpa [List.all_eq_true] using h)

/-- A decimal numeral starts with a digit or a point. -/
theorem numeral_shape {t : PyStr} (h : isDecNumeral t = true) :
    ∃ c cs, t = c :: cs ∧ (c.isDigit = true ∨ c = '.') := by
  cases t with
  | nil => simp [isDecNumeral] at h
  | cons c cs =>
    refine ⟨c, cs, rfl, ?_⟩
    by_cases hc : c.isDigit = true
    · exact Or.inl hc
    · right
      rw [isDecNumeral, List.dropWhile_cons_of_neg (by simpa using hc)] at h
      split at h
      all_goals simp_all

theorem isDecNumeral_not_alpha {t : PyStr} (h : isDecNumeral t = true) :
    pyIsAlpha t = false := by
  obtain ⟨c, cs, rfl, hc⟩ := numeral_shape h
  have : c.isAlpha = false := by
    rcases hc with hd | hdot
    · exact isDigit_not_alpha hd
    · rw [hdot]; decide
  simp [pyIsAlpha, this]

/-- The embedded `float()` parser is correct on decimal numerals. -/
theorem pyFloatParse_numeral {t : PyStr} (h : isDecNumeral t = true) :
    pyFloatParse t = .ok (numeralVal t) := by
  obtain ⟨c, cs, rfl, hc⟩ := numeral_shape h
  have hplus : c ≠ '+' := by
    rcases hc with hd | hdot
    · exact isDigit_ne_of_not (by decide) hd
    · rw [hdot]; decide
  have hminus : c ≠ '-' := by
    rcases hc with hd | hdot
    · exact isDigit_ne_of_not (by decide) hd
    · rw [hdot]; decide
  have hsig : pyFloatSigned (c :: cs) = pyFloatCore (c :: cs) := by
    rw [pyFloatSigned, if_neg hplus, if_neg hminus]
  rcases hd : (c :: cs).dropWhile Char.isDigit with _ | ⟨c2, r2⟩
  · rw [isDecNumeral, hd] at h
    simp only [Bool.not_eq_true'] at h
    simp [pyFloatParse, hsig, pyFloatCore, numeralVal, hd, h, mantRest]
  · by_cases hc2 : c2 = '.'
    · subst hc2
      rw [isDecNumeral, hd] at h
      simp only [Bool.and_eq_true, Bool.or_eq_true, Bool.not_eq_true'] at h
      obtain ⟨hall, hor⟩ := h
      have ht := takeWhile_all r2 hall
      have hdr := dropWhile_all r2 hall
      simp only [pyFloatParse, hsig, pyFloatCore, numeralVal, hd, ht, hdr, mantRest]
      rcases hor with h1 | h1 <;> simp [h1]
    · exfalso
      rw [isDecNumeral, hd] at h
      split at h
      all_goals simp_all

theorem convToken_alpha_single {c : Char} (h : pyIsAlpha [c] = true) :
    convToken [c] = .ok ((c.toNat : ℚ) / 100) := by
  rw [convToken, if_pos h]
  rfl

theorem convToken_numeral {t : PyStr} (h : isDecNumeral t = true) :
    convToken t = .ok (numeralVal t) := by
  rw [convToken, if_neg (by simp [isDecNumeral_not_alpha h]), pyFloatParse_numeral h]

theorem convToken_good {t : PyStr} (h : goodToken t) : convToken t = .ok (tokenVal t) := by
  rcases h with ⟨ha, hl⟩ | hn
  · match t, hl with
    | [c], _ =>
      rw [convToken_alpha_single ha, tokenVal, if_pos ha]
      rfl
  · rw [convToken_numeral hn, tokenVal, if_neg (by simp [isDecNumeral_not_alpha hn])]

theorem convTokens_good (l : List PyStr) (h : ∀ t ∈ l, goodToken t) :
    convTokens l = .ok (l.map tokenVal) := by
  induction l with
  | nil => rfl
  | cons t ts ih =>
    rw [convTokens, convToken_good (h t (by simp)), ih (fun u hu => h u (by simp [hu]))]
    rfl

/-- C1 (counterexample): on the all-alphabetic two-character token `AB`
the function raises `TypeError` (Python `ord` rejects multi-character
strings) instead of returning any mean. -/
theorem char_to_float_multichar_alpha_raises :
    pyIsAlpha (pstr "AB") = true ∧ char_to_float (pstr "AB") = .error .typeError := by
  decide

theorem char_to_float_mean_aux (s : PyStr) (h0 : tokens s ≠ [])
    (h : ∀ t ∈ tokens s, goodToken t) :
    char_to_float s =
      .ok (.val (((tokens s).map tokenVal).sum / ((tokens s).length : ℚ))) := by
  rw [char_to_float, convTokens_good (tokens s) h]
  have hne : ((tokens s).map tokenVal).isEmpty = false := by
    cases hts : tokens s with
    | nil => exact absurd hts h0
    | cons a l => simp
  simp [hne]

/-- C1 (amended): for every label whose token list is nonempty and whose
tokens are each a single alphabetic character or a decimal numeral,
`char_to_float` returns the arithmetic mean over all tokens of
`ord(token)/100` for alphabetic tokens and of the numeric value for
numeric tokens. -/
theorem char_to_float_token_mean (s : PyStr) (h0 : tokens s ≠ [])
    (h : ∀ t ∈ tokens s, goodToken t) :
    char_to_float s =
      .ok (.val (((tokens s).map tokenVal).sum / ((tokens s).length : ℚ))) :=
  char_to_float_mean_aux s h0 h

/-- C1 witness: a concrete qualifying label. -/
theorem char_to_float_token_mean_witness :
    char_to_float (pstr "P 21") =
      .ok (.val (((tokens (pstr "P 21")).map tokenVal).sum /
        ((tokens (pstr "P 21")).length : ℚ))) :=
  char_to_float_token_mean (pstr "P 21") (by decide) (by decide)

theorem convTokens_mem_error (l : List PyStr)
    (h : ∃ t ∈ l, ∃ e, convToken t = .error e) :
    ∃ e, convTokens l = .error e := by
  induction l with
  | nil => simp at h
  | cons t ts ih =>
    obtain ⟨u, hu, e, he⟩ := h
    rcases List.mem_cons.mp hu with rfl | hmem
    · exact ⟨e, by rw [convTokens, he]⟩
    · rw [convTokens]
      cases hc : convToken t with
      | error e2 => exact ⟨e2, rfl⟩
      | ok v =>
        obtain ⟨e3, he3⟩ := ih ⟨u, hmem, e, he⟩
        exact ⟨e3, by rw [he3]⟩

/-- C8 (counterexample): on the empty and the all-whitespace string,
`char_to_float` returns NaN (the NumPy quotient `0.0 / 0` warns and
yields NaN); no exception is raised. -/
theorem char_to_float_empty_returns_nan :
    char_to_float (pstr "") = .ok .nan ∧ char_to_float (pstr "  ") = .ok .nan := by
  decide

/-- C8 (amended): the domain of `char_to_float` — it returns NaN on a
whitespace-only input; a token that is alphabetic but not of length one
raises `TypeError`; a non-alphabetic token rejected by `float()` raises
`ValueError`; any failing token makes the whole call raise; and every
input whose tokens are single alphabetic characters or decimal numerals
yields a numeric value. -/
theorem char_to_float_error_domain :
    (∀ s : PyStr, tokens s = [] → char_to_float s = .ok .nan) ∧
    (∀ t : PyStr, pyIsAlpha t = true → t.length ≠ 1 → convToken t = .error .typeError) ∧
    (∀ t : PyStr, pyIsAlpha t = false → pyFloatSigned t = none →
      convToken t = .error .valueError) ∧
    (∀ s : PyStr, (∃ t ∈ tokens s, ∃ e, convToken t = .error e) →
      ∃ e, char_to_float s = .error e) ∧
    (∀ s : PyStr, tokens s ≠ [] → (∀ t ∈ tokens s, goodToken t) →
      ∃ v, char_to_float s = .ok (.val v)) := by
  refine ⟨?_, ?_, ?_, ?_, ?_⟩
  · intro s hs
    rw [char_to_float, hs]
    rfl
  · intro t ha hl
    rw [convToken, if_pos ha]
    match t, hl with
    | [], _ => simp [pyIsAlpha] at ha
    | [c], h1 => exact absurd rfl h1
    | c1 :: c2 :: r, _ => rfl
  · intro t ha hp
    rw [convToken, if_neg (by simp [ha]), pyFloatParse, hp]
  · intro s hs
    obtain ⟨e, he⟩ := convTokens_mem_error (tokens s) hs
    exact ⟨e, by rw [char_to_float, he]⟩
  · intro s h0 h
    exact ⟨((tokens s).map tokenVal).sum / ((tokens s).length : ℚ),
      char_to_float_mean_aux s h0 h⟩

/-- C8 witness: a concrete well-formed label yields a numeric value. -/
theorem char_to_float_error_domain_witness :
    ∃ v, char_to_float (pstr "C 1 2 1") = .ok (.val v) :=
  char_to_float_error_domain.2.2.2.2 (pstr "C 1 2 1") (by decide) (by decide)

/-- Big-step evaluation relation for the conversion loop of
`char_to_float`: one token is converted per step, the first exception
aborts the loop. -/
inductive ConvListR : List PyStr → Except PyErr (List ℚ) → Prop where
  | nil : ConvListR [] (.ok [])
  | headErr {t ts e} : convToken t = .error e → ConvListR (t :: ts) (.error e)
  | consOk {t ts v vs} : convToken t = .ok v → ConvListR ts (.ok vs) →
      ConvListR (t :: ts) (.ok (v :: vs))
  | tailErr {t ts v e} : convToken t = .ok v → ConvListR ts (.error e) →
      ConvListR (t :: ts) (.error e)

/-- Big-step evaluation relation for `char_to_float` itself. -/
inductive CharToFloatR : PyStr → Except PyErr PyFloat → Prop where
  | conv {s vs} : ConvListR (tokens s) (.ok vs) →
      CharToFloatR s (.ok (if vs.isEmpty then .nan else .val (vs.sum / (vs.length : ℚ))))
  | err {s e} : ConvListR (tokens s) (.error e) → CharToFloatR s (.error e)

theorem ConvListR_eq_convTokens {l : List PyStr} {r : Except PyErr (List ℚ)}
    (h : ConvListR l r) : convTokens l = r := by
  induction h with
  | nil => rfl
  | headErr he => rw [convTokens, he]
  | consOk hv _ ih => rw [convTokens, hv, ih]
  | tailErr hv _ ih => rw [convTokens, hv, ih]

theorem CharToFloatR_eq {s : PyStr} {r : Except PyErr PyFloat}
    (h : CharToFloatR s r) : char_to_float s = r := by
  cases h with
  | conv hc => rw [char_to_float, ConvListR_eq_convTokens hc]
  | err hc => rw [char_to_float, ConvListR_eq_convTokens hc]

/-- C7: the evaluation relation of `char_to_float` is deterministic and
agrees with the function: the result depends only on the argument string,
on no hidden state. -/
theorem char_to_float_deterministic (s : PyStr) (r1 r2 : Except PyErr PyFloat)
    (h1 : CharToFloatR s r1) (h2 : CharToFloatR s r2) :
    r1 = r2 ∧ char_to_float s = r1 := by
  have e1 := CharToFloatR_eq h1
  have e2 := CharToFloatR_eq h2
  exact ⟨e1.symm.trans e2, e1⟩

/-- C7 witness: two concrete evaluations of the same label agree. -/
theorem char_to_float_deterministic_witness :
    char_to_float (pstr "P") = .ok (.val (('P'.toNat : ℚ) / 100 / 1)) := by
  have hct : convToken (pstr "P") = .ok (('P'.toNat : ℚ) / 100) := by
    rw [show pstr "P" = ['P'] from by decide]
    exact convToken_alpha_single (by decide)
  have he : tokens (pstr "P") = [pstr "P"] := by decide
  have hcl : ConvListR (tokens (pstr "P")) (.ok [('P'.toNat : ℚ) / 100]) := by
    rw [he]
    exact ConvListR.consOk hct ConvListR.nil
  have hfull := CharToFloatR.conv hcl
  have hres := (char_to_float_deterministic (pstr "P") _ _ hfull hfull).2
  simpa using hres

/-- JSON values of the PDB dataset. -/
inductive J where
  | null
  | bool (b : Bool)
  | num (q : ℚ)
  | str (s : PyStr)
  | arr (xs : List J)
  | obj (fields : List (PyStr × J))

/-- Python `d[k]` with a string key: dictionary lookup (`KeyError` when
the key is absent), `TypeError` on a non-dictionary. -/
def J.getItem (j : J) (k : PyStr) : Except PyErr J :=
  match j with
  | .obj fs =>
    match List.lookup k fs with
    | some v => .ok v
    | none => .error .keyError
  | _ => .error .typeError

/-- Python `a[0]`: list indexing (`IndexError` out of range); a
dictionary raises `KeyError` for an absent integer key; a string yields
its character; `TypeError` otherwise. -/
def J.getIdx (j : J) (n : Nat) : Except PyErr J :=
  match j with
  | .arr xs =>
    match xs[n]? with
    | some v => .ok v
    | none => .error .indexError
  | .obj _ => .error .keyError
  | .str s =>
    match s[n]? with
    | some c => .ok (.str [c])
    | none => .error .indexError
  | _ => .error .typeError

/-- Needle-starts-hay test on character lists, by explicit recursion. -/
def listStartsWith : PyStr → PyStr → Bool
  | [], _ => true
  | _ :: _, [] => false
  | c :: cs, d :: ds => c = d && listStartsWith cs ds

/-- Contiguous-substring test on character lists. -/
def strContains (needle hay : PyStr) : Bool :=
  match hay with
  | [] => needle.isEmpty
  | _ :: t => listStartsWith needle hay || strContains needle t

/-- Python `k in j` for a string `k`: key membership in a dictionary,
element membership in a list, substring test in a string, `TypeError`
otherwise. -/
def J.pyIn (j : J) (k : PyStr) : Except PyErr Bool :=
  match j with
  | .obj fs => .ok (List.lookup k fs).isSome
  | .arr xs => .ok (xs.any (fun x => match x with | .str t => t == k | _ => false))
  | .str s => .ok (strContains k s)
  | _ => .error .typeError

/-- Python `len(j)`: strings, lists and dictionaries have a length. -/
def J.pyLen (j : J) : Except PyErr Nat :=
  match j with
  | .str s => .ok s.length
  | .arr xs => .ok xs.length
  | .obj fs => .ok fs.length
  | _ => .error .typeError

/-- Storing a value into a float NumPy array (`a[i] = v`): numbers are
stored, booleans are cast, strings are parsed, anything else raises. -/
def npAssign (j : J) : Except PyErr PyFloat :=
  match j with
  | .num q => .ok (.val q)
  | .bool b => .ok (.val (if b then 1 else 0))
  | .str s =>
    match pyFloatSigned s with
    | some q => .ok (.val q)
    | none => .error .valueError
  | _ => .error .valueError

/-- Python `float(j)` on a JSON value. -/
def pyFloatFn (j : J) : Except PyErr ℚ :=
  match j with
  | .num q => .ok q
  | .bool b => .ok (if b then 1 else 0)
  | .str s => pyFloatParse s
  | _ => .error .typeError

/-- The receiver of `.split()` must be a string (`AttributeError`). -/
def asStrAttr (j : J) : Except PyErr PyStr :=
  match j with
  | .str s => .ok s
  | _ => .error .attributeError

def kEntry : PyStr := pstr "entry"
def kEC : PyStr := pstr "exptl_crystal"
def kDM : PyStr := pstr "density_matthews"
def kDPS : PyStr := pstr "density_percent_sol"
def kCell : PyStr := pstr "cell"
def kAlpha : PyStr := pstr "angle_alpha"
def kBeta : PyStr := pstr "angle_beta"
def kGamma : PyStr := pstr "angle_gamma"
def kLa : PyStr := pstr "length_a"
def kLb : PyStr := pstr "length_b"
def kLc : PyStr := pstr "length_c"
def kSym : PyStr := pstr "symmetry"
def kSG : PyStr := pstr "space_group_name_hm"
def kITN : PyStr := pstr "int_tables_number"
def kSeq : PyStr := pstr "pdbx_seq_one_letter_code"

/-- Problem-1 loop body for one raw record `d = data[i]`: the guard
`'exptl_crystal' in entry and 'density_matthews' in entry['exptl_crystal'][0]
and 'density_percent_sol' in entry['exptl_crystal'][0]`, then the two
stores.  `ok none` means the record is skipped. -/
def p1Row (d : J) : Except PyErr (Option (List PyFloat × List PyFloat)) :=
  Except.bind (d.getItem kEntry) fun entry =>
  Except.bind (entry.pyIn kEC) fun b1 =>
  if b1 then
    Except.bind (entry.getItem kEC) fun ecv =>
    Except.bind (ecv.getIdx 0) fun e0 =>
    Except.bind (e0.pyIn kDM) fun b2 =>
    if b2 then
      Except.bind (e0.pyIn kDPS) fun b3 =>
      if b3 then
        Except.bind (e0.getItem kDM) fun dmj =>
        Except.bind (npAssign dmj) fun x =>
        Except.bind (e0.getItem kDPS) fun dpj =>
        Except.bind (npAssign dpj) fun y =>
        .ok (some ([x], [y]))
      else .ok none
    else .ok none
  else .ok none

/-- Problem-2 loop body for one raw record: the guard
`'cell' in entry and 'density_matthews' in entry['exptl_crystal'][0]` —
note `entry['exptl_crystal']` is accessed without a membership test —
then the nine feature stores and the target store. -/
def p2Row (d : J) : Except PyErr (Option (List PyFloat × List PyFloat)) :=
  Except.bind (d.getItem kEntry) fun entry =>
  Except.bind (entry.pyIn kCell) fun b1 =>
  if b1 then
    Except.bind (entry.getItem kEC) fun ecv =>
    Except.bind (ecv.getIdx 0) fun e0 =>
    Except.bind (e0.pyIn kDM) fun b2 =>
    if b2 then
      Except.bind (entry.getItem kCell) fun cell =>
      Except.bind (cell.getItem kAlpha) fun a0 =>
      Except.bind (npAssign a0) fun f0 =>
      Except.bind (cell.getItem kBeta) fun a1 =>
      Except.bind (npAssign a1) fun f1 =>
      Except.bind (cell.getItem kGamma) fun a2 =>
      Except.bind (npAssign a2) fun f2 =>
      Except.bind (cell.getItem kLa) fun a3 =>
      Except.bind (npAssign a3) fun f3 =>
      Except.bind (cell.getItem kLb) fun a4 =>
      Except.bind (npAssign a4) fun f4 =>
      Except.bind (cell.getItem kLc) fun a5 =>
      Except.bind (npAssign a5) fun f5 =>
      Except.bind (entry.getItem kSym) fun sym1 =>
      Except.bind (sym1.getItem kSG) fun sgj =>
      Except.bind (asStrAttr sgj) fun sgs =>
      Except.bind (char_to_float sgs) fun f6 =>
      Except.bind (entry.getItem kSym) fun sym2 =>
      Except.bind (sym2.getItem kITN) fun itn =>
      Except.bind (pyFloatFn itn) fun q7 =>
      Except.bind (entry.getItem kSeq) fun seqj =>
      Except.bind (seqj.pyLen) fun n =>
      Except.bind (e0.getItem kDM) fun dmj =>
      Except.bind (npAssign dmj) fun tv =>
      .ok (some ([f0, f1, f2, f3, f4, f5, f6, .val q7, .val ((n * 110 : Nat) : ℚ)], [tv]))
    else .ok none
  else .ok none

/-- State of one extraction loop: the dense `np.zeros` input and target
arrays and the list `indices` of retained positions. -/
structure ExtractSt where
  inputs : List (List PyFloat)
  targets : List (List PyFloat)
  idxs : List Nat

/-- The extraction loop `for i in range(len(data))`: on a retained record
row `i` of each array is overwritten and `i` is appended to `indices`. -/
def extractFold (q : J → Except PyErr (Option (List PyFloat × List PyFloat))) :
    List J → Nat → ExtractSt → Except PyErr ExtractSt
  | [], _, st => .ok st
  | d :: ds, i, st =>
    match q d with
    | .error e => .error e
    | .ok none => extractFold q ds (i + 1) st
    | .ok (some (r, t)) =>
      extractFold q ds (i + 1) ⟨st.inputs.set i r, st.targets.set i t, st.idxs ++ [i]⟩

/-- A whole extraction: `np.zeros((len(data), w))` for both arrays, the
loop, then the final gather `all_inputs[indices]`, `all_targets[indices]`. -/
def extractRun (q : J → Except PyErr (Option (List PyFloat × List PyFloat)))
    (wI wT : Nat) (data : List J) :
    Except PyErr (List (List PyFloat) × List (List PyFloat)) :=
  match extractFold q data 0
      ⟨List.replicate data.length (List.replicate wI (.val 0)),
       List.replicate data.length (List.replicate wT (.val 0)), []⟩ with
  | .error e => .error e
  | .ok st =>
    .ok (st.idxs.map (fun i => st.inputs.getD i []),
         st.idxs.map (fun i => st.targets.getD i []))

/-- The Problem-1 extraction (`np.zeros((len(data), 1))` twice). -/
def p1Run (data : List J) : Except PyErr (List (List PyFloat) × List (List PyFloat)) :=
  extractRun p1Row 1 1 data

/-- The Problem-2 extraction (`np.zeros((len(data), 9))` and
`np.zeros((len(data), 1))`). -/
def p2Run (data : List J) : Except PyErr (List (List PyFloat) × List (List PyFloat)) :=
  extractRun p2Row 9 1 data

/-- Input rows a loop body `q` produces on `data`, in record order. -/
def rowsOf (q : J → Except PyErr (Option (List PyFloat × List PyFloat)))
    (data : List J) : List (List PyFloat) :=
  data.filterMap fun d =>
    match q d with
    | .ok (some (r, _)) => some r
    | _ => none

/-- Target rows a loop body `q` produces on `data`, in record order. -/
def tgtsOf (q : J → Except PyErr (Option (List PyFloat × List PyFloat)))
    (data : List J) : List (List PyFloat) :=
  data.filterMap fun d =>
    match q d with
    | .ok (some (_, t)) => some t
    | _ => none

theorem except_bind_ok {α β : Type} {x : Except PyErr α} {f : α → Except PyErr β} {v : β} :
    Except.bind x f = .ok v ↔ ∃ a, x = .ok a ∧ f a = .ok v := by
  cases x with
  | error e => simp [Except.bind]
  | ok a => simp [Except.bind]

theorem getD_set_ne {l : List (List PyFloat)} {i j : Nat} {a : List PyFloat} (h : i ≠ j) :
    (l.set i a).getD j [] = l.getD j [] := by
  simp [List.getD_eq_getElem?_getD, List.getElem?_set_ne h]

theorem getD_set_self {l : List (List PyFloat)} {i : Nat} {a : List PyFloat}
    (h : i < l.length) :
    (l.set i a).getD i [] = a := by
  simp [List.getD_eq_getElem?_getD, List.getElem?_set_self h]

theorem extractFold_spec (q : J → Except PyErr (Option (List PyFloat × List PyFloat))) :
    ∀ (ds : List J) (i : Nat) (st : ExtractSt),
    (∀ d ∈ ds, ∃ o, q d = .ok o) →
    (∀ j ∈ st.idxs, j < i) →
    i + ds.length ≤ st.inputs.length →
    st.targets.length = st.inputs.length →
    ∃ st', extractFold q ds i st = .ok st' ∧
      st'.inputs.length = st.inputs.length ∧
      st'.targets.length = st.targets.length ∧
      st'.idxs.map (fun j => st'.inputs.getD j []) =
        st.idxs.map (fun j => st.inputs.getD j []) ++ rowsOf q ds ∧
      st'.idxs.map (fun j => st'.targets.getD j []) =
        st.idxs.map (fun j => st.targets.getD j []) ++ tgtsOf q ds := by
  intro ds
  induction ds with
  | nil =>
    intro i st hall hidx hlen htl
    exact ⟨st, rfl, rfl, rfl, by simp [rowsOf], by simp [tgtsOf]⟩
  | cons d ds ih =>
    intro i st hall hidx hlen htl
    obtain ⟨o, ho⟩ := hall d (by simp)
    have hall2 : ∀ d2 ∈ ds, ∃ o2, q d2 = .ok o2 := fun d2 hd2 => hall d2 (by simp [hd2])
    cases o with
    | none =>
      rw [extractFold, ho]
      obtain ⟨st', h1, h2, h3, h4, h5⟩ :=
        ih (i + 1) st hall2 (fun j hj => Nat.lt_succ_of_lt (hidx j hj))
          (by simp only [List.length_cons] at hlen; omega) htl
      exact ⟨st', h1, h2, h3,
        by rw [h4]; simp [rowsOf, List.filterMap_cons, ho],
        by rw [h5]; simp [tgtsOf, List.filterMap_cons, ho]⟩
    | some rt =>
      obtain ⟨r, t⟩ := rt
      rw [extractFold, ho]
      have hilt : i < st.inputs.length := by
        simp only [List.length_cons] at hlen
        omega
      have hilt2 : i < st.targets.length := by rw [htl]; exact hilt
      obtain ⟨st', h1, h2, h3, h4, h5⟩ :=
        ih (i + 1) ⟨st.inputs.set i r, st.targets.set i t, st.idxs ++ [i]⟩ hall2
          (by
            intro j hj
            rcases List.mem_append.mp hj with hj1 | hj2
            · exact Nat.lt_succ_of_lt (hidx j hj1)
            · simp only [List.mem_singleton] at hj2
              omega)
          (by simp only [List.length_set]; simp only [List.length_cons] at hlen; omega)
          (by simp [htl])
      refine ⟨st', h1, by simpa using h2, by simpa using h3, ?_, ?_⟩
      · rw [h4]
        simp only [List.map_append, List.map_cons, List.map_nil]
        have hmc : (st.idxs).map (fun j => (st.inputs.set i r).getD j []) =
            (st.idxs).map (fun j => st.inputs.getD j []) :=
          List.map_congr_left (fun j hj => getD_set_ne (Nat.ne_of_gt (hidx j hj)))
        rw [hmc, getD_set_self hilt]
        simp [rowsOf, List.filterMap_cons, ho]
      · rw [h5]
        simp only [List.map_append, List.map_cons, List.map_nil]
        have hmc : (st.idxs).map (fun j => (st.targets.set i t).getD j []) =
            (st.idxs).map (fun j => st.targets.getD j []) :=
          List.map_congr_left (fun j hj => getD_set_ne (Nat.ne_of_gt (hidx j hj)))
        rw [hmc, getD_set_self hilt2]
        simp [tgtsOf, List.filterMap_cons, ho]

/-- A successful extraction yields exactly the per-record rows, in record
order. -/
theorem extractRun_spec (q : J → Except PyErr (Option (List PyFloat × List PyFloat)))
    (wI wT : Nat) (data : List J) (h : ∀ d ∈ data, ∃ o, q d = .ok o) :
    extractRun q wI wT data = .ok (rowsOf q data, tgtsOf q data) := by
  obtain ⟨st', h1, h2, h3, h4, h5⟩ :=
    extractFold_spec q data 0
      ⟨List.replicate data.length (List.replicate wI (.val 0)),
       List.replicate data.length (List.replicate wT (.val 0)), []⟩
      h (by simp) (by simp) (by simp)
  rw [extractRun, h1]
  simp only [List.map_nil, List.nil_append, List.getD_eq_getElem?_getD] at h4 h5
  simp [h4, h5]

/-- Errors propagate: if the fold succeeded, every record succeeded. -/
theorem extractFold_ok_all (q : J → Except PyErr (Option (List PyFloat × List PyFloat))) :
    ∀ (ds : List J) (i : Nat) (st st' : ExtractSt),
    extractFold q ds i st = .ok st' → ∀ d ∈ ds, ∃ o, q d = .ok o := by
  intro ds
  induction ds with
  | nil => intro i st st' hf d hd; simp at hd
  | cons d0 ds ih =>
    intro i st st' hf d hd
    rw [extractFold] at hf
    rcases List.mem_cons.mp hd with rfl | hmem
    · cases hq : q d with
      | error e => rw [hq] at hf; cases hf
      | ok o => exact ⟨o, rfl⟩
    · cases hq : q d0 with
      | error e => rw [hq] at hf; cases hf
      | ok o =>
        rw [hq] at hf
        cases o with
        | none => exact ih (i + 1) st st' hf d hmem
        | some rt => exact ih (i + 1) _ st' hf d hmem

/-- Key lookup in a JSON object, `none` on a non-object. -/
def J.objGet? : J → PyStr → Option J
  | .obj fs, k => List.lookup k fs
  | _, _ => none

def J.isObjB : J → Bool
  | .obj _ => true
  | _ => false

def J.isNumB : J → Bool
  | .num _ => true
  | _ => false

/-- Shape assumption for one raw record in the Problem-1 loop: the record
is an object with an `entry` object; when `exptl_crystal` is present it
is a nonempty list whose first element is an object; when the two density
keys are present their values are numbers.  Any subset of the keys may be
absent. -/
def P1WF (d : J) : Bool :=
  match d.objGet? kEntry with
  | none => false
  | some entry =>
    entry.isObjB &&
    (match entry.objGet? kEC with
     | none => true
     | some (J.arr (e0 :: _)) =>
       e0.isObjB &&
       (match e0.objGet? kDM with
        | none => true
        | some v => v.isNumB) &&
       (match e0.objGet? kDPS with
        | none => true
        | some v => v.isNumB)
     | some _ => false)

/-- The Problem-1 row selection exactly as the claim words it: a record
contributes a row precisely when its `entry` mapping contains
`exptl_crystal` and the first `exptl_crystal` element contains both
`density_matthews` and `density_percent_sol`; the input row is the
`density_matthews` value and the target row the `density_percent_sol`
value. -/
def specP1Row (d : J) : Option (List PyFloat × List PyFloat) :=
  match d.objGet? kEntry with
  | some entry =>
    match entry.objGet? kEC with
    | some (J.arr (e0 :: _)) =>
      match e0.objGet? kDM, e0.objGet? kDPS with
      | some (J.num a), some (J.num b) => some ([.val a], [.val b])
      | _, _ => none
    | _ => none
  | none => none

theorem p1Row_of_wf (d : J) (h : P1WF d = true) : p1Row d = .ok (specP1Row d) := by
  rw [P1WF] at h
  cases d with
  | obj fs =>
    cases hl : List.lookup kEntry fs with
    | none =>
      simp only [J.objGet?, hl] at h
      exact Bool.noConfusion h
    | some entry =>
      simp only [J.objGet?, hl] at h
      cases entry with
      | obj efs =>
        simp only [J.isObjB, Bool.true_and] at h
        cases hec : List.lookup kEC efs with
        | none =>
          simp [p1Row, specP1Row, Except.bind, J.getItem, J.pyIn, J.objGet?, hl, hec]
        | some ecv =>
          simp only [J.objGet?, hec] at h
          cases ecv with
          | arr xs =>
            cases xs with
            | nil => simp at h
            | cons e0 rest =>
              cases e0 with
              | obj e0fs =>
                simp only [J.isObjB, Bool.true_and, Bool.and_eq_true] at h
                obtain ⟨hdm0, hdps0⟩ := h
                cases hdm : List.lookup kDM e0fs with
                | none =>
                  simp [p1Row, specP1Row, Except.bind, J.getItem, J.getIdx, J.pyIn,
                    J.objGet?, hl, hec, hdm]
                | some vdm =>
                  simp only [J.objGet?, hdm] at hdm0
                  cases vdm with
                  | num a =>
                    cases hdps : List.lookup kDPS e0fs with
                    | none =>
                      simp [p1Row, specP1Row, Except.bind, J.getItem, J.getIdx, J.pyIn,
                        J.objGet?, hl, hec, hdm, hdps]
                    | some vdps =>
                      simp only [J.objGet?, hdps] at hdps0
                      cases vdps with
                      | num b =>
                        simp [p1Row, specP1Row, Except.bind, J.getItem, J.getIdx, J.pyIn,
                          J.objGet?, npAssign, hl, hec, hdm, hdps]
                      | null => simp [J.isNumB] at hdps0
                      | bool b2 => simp [J.isNumB] at hdps0
                      | str s2 => simp [J.isNumB] at hdps0
                      | arr xs2 => simp [J.isNumB] at hdps0
                      | obj fs2 => simp [J.isNumB] at hdps0
                  | null => simp [J.isNumB] at hdm0
                  | bool b2 => simp [J.isNumB] at hdm0
                  | str s2 => simp [J.isNumB] at hdm0
                  | arr xs2 => simp [J.isNumB] at hdm0
                  | obj fs2 => simp [J.isNumB] at hdm0
              | null => simp [J.isObjB] at h
              | bool b2 => simp [J.isObjB] at h
              | num q2 => simp [J.isObjB] at h
              | str s2 => simp [J.isObjB] at h
              | arr xs2 => simp [J.isObjB] at h
          | null => simp at h
          | bool b2 => simp at h
          | num q2 => simp at h
          | str s2 => simp at h
          | obj fs2 => simp at h
      | null => simp [J.isObjB] at h
      | bool b2 => simp [J.isObjB] at h
      | num q2 => simp [J.isObjB] at h
      | str s2 => simp [J.isObjB] at h
      | arr xs2 => simp [J.isObjB] at h
  | null => simp only [J.objGet?] at h; exact Bool.noConfusion h
  | bool b2 => simp only [J.objGet?] at h; exact Bool.noConfusion h
  | num q2 => simp only [J.objGet?] at h; exact Bool.noConfusion h
  | str s2 => simp only [J.objGet?] at h; exact Bool.noConfusion h
  | arr xs2 => simp only [J.objGet?] at h; exact Bool.noConfusion h

/-- A fully populated sample record (its space-group label is the empty
string, which `char_to_float` maps to NaN). -/
def sampleEntry : J :=
  .obj [(kEntry, .obj [
    (kEC, .arr [.obj [(kDM, .num 2), (kDPS, .num 40)]]),
    (kCell, .obj [(kAlpha, .num 90), (kBeta, .num 90), (kGamma, .num 90),
                  (kLa, .num 50), (kLb, .num 60), (kLc, .num 70)]),
    (kSym, .obj [(kSG, .str []), (kITN, .num 1)]),
    (kSeq, .str (pstr "MK"))])]

example : P1WF sampleEntry = true := by decide
example : p1Row sampleEntry = .ok (some ([.val 2], [.val 40])) := by decide
example : p2Row sampleEntry = .ok (some
    ([.val 90, .val 90, .val 90, .val 50, .val 60, .val 70, .nan, .val 1, .val 220],
     [.val 2])) := by decide

/-- A record whose `entry` object has `cell` but no `exptl_crystal`. -/
def cellOnly : J := .obj [(kEntry, .obj [(kCell, .obj [])])]

/-- C2 (counterexample): in the Problem-2 loop an entry containing `cell`
but lacking `exptl_crystal` is not skipped — the unguarded access
`entry['exptl_crystal'][0]` inside the guard raises `KeyError`. -/
theorem p2_loop_raises_on_missing_exptl_crystal :
    (J.obj [(kCell, J.obj [])]).pyIn kEC = .ok false ∧
    p2Row cellOnly = .error .keyError := by
  decide

/-- C2 (amended): the Problem-1 loop raises on no well-shaped record,
whatever subset of the keys is present; the Problem-2 loop only tests
membership of `cell` (and of `density_matthews`), so records lacking
`cell` are skipped silently, but a record with `cell` and without
`exptl_crystal` raises `KeyError`. -/
theorem extraction_missing_field_handling :
    (∀ d : J, P1WF d = true → ∃ o, p1Row d = .ok o) ∧
    (∀ d entry : J, d.getItem kEntry = .ok entry → entry.pyIn kCell = .ok false →
      p2Row d = .ok none) ∧
    p2Row cellOnly = .error .keyError := by
  refine ⟨?_, ?_, by decide⟩
  · intro d h
    exact ⟨specP1Row d, p1Row_of_wf d h⟩
  · intro d entry he hc
    rw [p2Row, he]
    simp [Except.bind, hc]

/-- C2 witness: the Problem-1 loop succeeds on a concrete full record. -/
theorem extraction_missing_field_handling_witness :
    ∃ o, p1Row sampleEntry = .ok o :=
  extraction_missing_field_handling.1 sampleEntry (by decide)

/-- C3: on well-shaped data the Problem-1 extraction produces rows
exactly for the qualifying records, in ascending record order, the input
row being the `density_matthews` value and the target row the
`density_percent_sol` value. -/
theorem p1_extraction_rows_spec (data : List J) (h : ∀ d ∈ data, P1WF d = true) :
    p1Run data = .ok (data.filterMap (fun d => (specP1Row d).map Prod.fst),
                      data.filterMap (fun d => (specP1Row d).map Prod.snd)) := by
  have hall : ∀ d ∈ data, ∃ o, p1Row d = .ok o :=
    fun d hd => ⟨specP1Row d, p1Row_of_wf d (h d hd)⟩
  rw [p1Run, extractRun_spec p1Row 1 1 data hall]
  have h1 : rowsOf p1Row data = data.filterMap (fun d => (specP1Row d).map Prod.fst) := by
    rw [rowsOf]
    apply List.filterMap_congr
    intro d hd
    rw [p1Row_of_wf d (h d hd)]
    cases hs : specP1Row d with
    | none => rfl
    | some rt => cases rt; rfl
  have h2 : tgtsOf p1Row data = data.filterMap (fun d => (specP1Row d).map Prod.snd) := by
    rw [tgtsOf]
    apply List.filterMap_congr
    intro d hd
    rw [p1Row_of_wf d (h d hd)]
    cases hs : specP1Row d with
    | none => rfl
    | some rt => cases rt; rfl
  rw [h1, h2]

/-- C3 witness: the extraction on a one-record dataset. -/
theorem p1_extraction_rows_spec_witness :
    p1Run [sampleEntry] = .ok ([[PyFloat.val 2]], [[PyFloat.val 40]]) := by
  have h := p1_extraction_rows_spec [sampleEntry] (by decide)
  have hs : specP1Row sampleEntry = some ([PyFloat.val 2], [PyFloat.val 40]) := by decide
  rw [h]
  simp [List.filterMap_cons, hs]

theorem p1Row_ok_shape {d : J} {r t : List PyFloat}
    (h : p1Row d = .ok (some (r, t))) : r.length = 1 ∧ t.length = 1 := by
  simp only [p1Row, except_bind_ok] at h
  obtain ⟨entry, he, b1, hb1, h⟩ := h
  cases b1 with
  | false => simp at h
  | true =>
    simp only [if_true, except_bind_ok] at h
    obtain ⟨ecv, hec, e0, he0, b2, hb2, h⟩ := h
    cases b2 with
    | false => simp at h
    | true =>
      simp only [if_true, except_bind_ok] at h
      obtain ⟨b3, hb3, h⟩ := h
      cases b3 with
      | false => simp at h
      | true =>
        simp only [if_true, except_bind_ok] at h
        obtain ⟨dmj, hdm, x, hx, dpj, hdp, y, hy, hfin⟩ := h
        obtain ⟨h1, h2⟩ : [x] = r ∧ [y] = t := by
          simpa using hfin
        rw [← h1, ← h2]
        exact ⟨rfl, rfl⟩

theorem p2Row_ok_elim {d : J} {r t : List PyFloat}
    (h : p2Row d = .ok (some (r, t))) :
    ∃ entry seqj n,
      d.getItem kEntry = .ok entry ∧
      entry.getItem kSeq = .ok seqj ∧ seqj.pyLen = .ok n ∧
      r.length = 9 ∧ t.length = 1 ∧
      r.getD 8 (.val 0) = .val ((n * 110 : Nat) : ℚ) := by
  simp only [p2Row, except_bind_ok] at h
  obtain ⟨entry, he, b1, hb1, h⟩ := h
  cases b1 with
  | false => simp at h
  | true =>
    simp only [if_true, except_bind_ok] at h
    obtain ⟨ecv, hec, e0, he0, b2, hb2, h⟩ := h
    cases b2 with
    | false => simp at h
    | true =>
      simp only [if_true, except_bind_ok] at h
      obtain ⟨cell, hcell, a0, ha0, f0, hf0, a1, ha1, f1, hf1, a2, ha2, f2, hf2,
        a3, ha3, f3, hf3, a4, ha4, f4, hf4, a5, ha5, f5, hf5,
        sym1, hsym1, sgj, hsg, sgs, hsgs, f6, hf6,
        sym2, hsym2, itn, hitn, q7, hq7, seqj, hseq, n, hn, dmj, hdm, tv, htv, hfin⟩ := h
      refine ⟨entry, seqj, n, he, hseq, hn, ?_⟩
      obtain ⟨h1, h2⟩ :
          [f0, f1, f2, f3, f4, f5, f6, .val q7, .val ((n * 110 : Nat) : ℚ)] = r ∧
          [tv] = t := by
        simpa using hfin
      rw [← h1, ← h2]
      exact ⟨rfl, rfl, rfl⟩

theorem extractRun_ok_all (q : J → Except PyErr (Option (List PyFloat × List PyFloat)))
    (wI wT : Nat) (data : List J) (ins tgts : List (List PyFloat))
    (h : extractRun q wI wT data = .ok (ins, tgts)) :
    ins = rowsOf q data ∧ tgts = tgtsOf q data := by
  have hall : ∀ d ∈ data, ∃ o, q d = .ok o := by
    rw [extractRun] at h
    revert h
    cases hf : extractFold q data 0
        ⟨List.replicate data.length (List.replicate wI (.val 0)),
         List.replicate data.length (List.replicate wT (.val 0)), []⟩ with
    | error e => intro h; cases h
    | ok st => intro h; exact extractFold_ok_all q data 0 _ st hf
  have hs := extractRun_spec q wI wT data hall
  rw [hs] at h
  simp only [Except.ok.injEq, Prod.mk.injEq] at h
  exact ⟨h.1.symm, h.2.symm⟩

theorem rowsOf_mem (q : J → Except PyErr (Option (List PyFloat × List PyFloat)))
    (data : List J) (r : List PyFloat) (h : r ∈ rowsOf q data) :
    ∃ d ∈ data, ∃ t, q d = .ok (some (r, t)) := by
  rw [rowsOf] at h
  obtain ⟨d, hd, hf⟩ := List.mem_filterMap.mp h
  refine ⟨d, hd, ?_⟩
  revert hf
  cases hq : q d with
  | error e => intro hf; cases hf
  | ok o =>
    cases o with
    | none => intro hf; cases hf
    | some rt =>
      obtain ⟨r2, t2⟩ := rt
      intro hf
      simp only [Option.some.injEq] at hf
      exact ⟨t2, by rw [hf]⟩

theorem tgtsOf_mem (q : J → Except PyErr (Option (List PyFloat × List PyFloat)))
    (data : List J) (t : List PyFloat) (h : t ∈ tgtsOf q data) :
    ∃ d ∈ data, ∃ r, q d = .ok (some (r, t)) := by
  rw [tgtsOf] at h
  obtain ⟨d, hd, hf⟩ := List.mem_filterMap.mp h
  refine ⟨d, hd, ?_⟩
  revert hf
  cases hq : q d with
  | error e => intro hf; cases hf
  | ok o =>
    cases o with
    | none => intro hf; cases hf
    | some rt =>
      obtain ⟨r2, t2⟩ := rt
      intro hf
      simp only [Option.some.injEq] at hf
      exact ⟨r2, by rw [hf]⟩

/-- C5: every produced Problem-1 feature row has exactly 1 column, every
Problem-2 feature row exactly 9 columns, and every target row of either
problem is a single scalar. -/
theorem feature_target_widths (data : List J) (ins tgts ins2 tgts2 : List (List PyFloat))
    (h1 : p1Run data = .ok (ins, tgts)) (h2 : p2Run data = .ok (ins2, tgts2)) :
    (∀ r ∈ ins, r.length = 1) ∧ (∀ r ∈ tgts, r.length = 1) ∧
    (∀ r ∈ ins2, r.length = 9) ∧ (∀ r ∈ tgts2, r.length = 1) := by
  obtain ⟨hi1, ht1⟩ := extractRun_ok_all p1Row 1 1 data ins tgts h1
  obtain ⟨hi2, ht2⟩ := extractRun_ok_all p2Row 9 1 data ins2 tgts2 h2
  refine ⟨?_, ?_, ?_, ?_⟩
  · intro r hr
    rw [hi1] at hr
    obtain ⟨d, _, t, hq⟩ := rowsOf_mem p1Row data r hr
    exact (p1Row_ok_shape hq).1
  · intro t ht
    rw [ht1] at ht
    obtain ⟨d, _, r, hq⟩ := tgtsOf_mem p1Row data t ht
    exact (p1Row_ok_shape hq).2
  · intro r hr
    rw [hi2] at hr
    obtain ⟨d, _, t, hq⟩ := rowsOf_mem p2Row data r hr
    obtain ⟨_, _, _, _, _, _, hl, _, _⟩ := p2Row_ok_elim hq
    exact hl
  · intro t ht
    rw [ht2] at ht
    obtain ⟨d, _, r, hq⟩ := tgtsOf_mem p2Row data t ht
    obtain ⟨_, _, _, _, _, _, _, hl, _⟩ := p2Row_ok_elim hq
    exact hl

/-- C5 witness: both extractions on a concrete one-record dataset. -/
theorem feature_target_widths_witness :
    (∀ r ∈ [[PyFloat.val 2]], List.length r = 1) ∧
    (∀ r ∈ [[PyFloat.val 40]], List.length r = 1) ∧
    (∀ r ∈ [[PyFloat.val 90, .val 90, .val 90, .val 50, .val 60, .val 70,
        .nan, .val 1, .val 220]], List.length r = 9) ∧
    (∀ r ∈ [[PyFloat.val 2]], List.length r = 1) :=
  feature_target_widths [sampleEntry] _ _ _ _ (by decide) (by decide)

/-- C10: for every record the Problem-2 loop retains, the ninth feature
(column index 8) is exactly 110 times the character length of the
record's `pdbx_seq_one_letter_code` string. -/
theorem p2_mass_feature_110_per_residue (d entry : J) (seq : PyStr)
    (r t : List PyFloat) (h : p2Row d = .ok (some (r, t)))
    (he : d.getItem kEntry = .ok entry)
    (hs : entry.getItem kSeq = .ok (.str seq)) :
    r.getD 8 (.val 0) = .val ((110 * seq.length : Nat) : ℚ) := by
  obtain ⟨entry2, seqj, n, he2, hseq2, hn, _, _, hr8⟩ := p2Row_ok_elim h
  rw [he] at he2
  injection he2 with hent
  rw [← hent] at hseq2
  rw [hs] at hseq2
  injection hseq2 with hsj
  rw [← hsj] at hn
  simp only [J.pyLen, Except.ok.injEq] at hn
  rw [hr8]
  have : (n * 110 : Nat) = (110 * seq.length : Nat) := by omega
  rw [this]

/-- The `entry` object of the sample record. -/
def sampleInner : J :=
  .obj [
    (kEC, .arr [.obj [(kDM, .num 2), (kDPS, .num 40)]]),
    (kCell, .obj [(kAlpha, .num 90), (kBeta, .num 90), (kGamma, .num 90),
                  (kLa, .num 50), (kLb, .num 60), (kLc, .num 70)]),
    (kSym, .obj [(kSG, .str []), (kITN, .num 1)]),
    (kSeq, .str (pstr "MK"))]

/-- C10 witness: the sample record has a 2-residue sequence and mass
feature 220. -/
theorem p2_mass_feature_110_per_residue_witness :
    ([PyFloat.val 90, .val 90, .val 90, .val 50, .val 60, .val 70,
      .nan, .val 1, .val 220] : List PyFloat).getD 8 (.val 0) =
      .val ((110 * (pstr "MK").length : Nat) : ℚ) :=
  p2_mass_feature_110_per_residue sampleEntry sampleInner (pstr "MK")
    [PyFloat.val 90, .val 90, .val 90, .val 50, .val 60, .val 70,
      .nan, .val 1, .val 220] [PyFloat.val 2]
    (by decide) rfl rfl

/-- The framework primitives the training loop calls, left abstract:
`optimizer.zero_grad()`, `model(inputs)`, `criterion` (MSE),
`loss.backward()`, `optimizer.step()` (Adam) and `scheduler.step()`
(StepLR).  `P` is the parameter store, `G` the gradient store, `O` the
optimizer state, `S` the scheduler state, `Out` a model output, `B` a
minibatch. -/
structure TorchPrims (P G O S Out B : Type) where
  zeroGrad : G → G
  forward : P → B → Out
  mseLoss : Out → B → ℚ
  backward : P → B → G → G
  adamStep : P → G → O → P × O
  schedStep : S → O → S × O

/-- Mutable state of a training run. -/
structure TrainState (P G O S : Type) where
  p : P
  g : G
  o : O
  s : S

/-- `num_epochs = 1000` from the notebook. -/
def num_epochs : Nat := 1000

/-- One minibatch iteration, in source order: zero the gradients, forward
pass, loss, backward pass, optimizer step; the loss value is returned for
the `epoch_loss` accumulator. -/
def batchStep {P G O S Out B : Type} (tp : TorchPrims P G O S Out B)
    (st : TrainState P G O S) (b : B) : TrainState P G O S × ℚ :=
  let g1 := tp.zeroGrad st.g
  let out := tp.forward st.p b
  let l := tp.mseLoss out b
  let g2 := tp.backward st.p b g1
  let po := tp.adamStep st.p g2 st.o
  (⟨po.1, g2, po.2, st.s⟩, l)

/-- The inner `for i, dataset in enumerate(data_loader)` loop, summing
the batch losses into `epoch_loss` (initialised to `0.0`). -/
def runBatches {P G O S Out B : Type} (tp : TorchPrims P G O S Out B)
    (batches : List B) (st : TrainState P G O S) : TrainState P G O S × ℚ :=
  batches.foldl (fun acc b =>
    let r := batchStep tp acc.1 b
    (r.1, acc.2 + r.2)) (st, 0)

/-- One epoch: all batches, then exactly one `scheduler.step()`. -/
def runEpoch {P G O S Out B : Type} (tp : TorchPrims P G O S Out B)
    (batches : List B) (st : TrainState P G O S) : TrainState P G O S × ℚ :=
  let r := runBatches tp batches st
  let so := tp.schedStep r.1.s r.1.o
  (⟨r.1.p, r.1.g, so.2, so.1⟩, r.2)

/-- The outer `for epoch in range(num_epochs)` loop, appending one
aggregate loss per epoch to `losses`. -/
def trainLoop {P G O S Out B : Type} (tp : TorchPrims P G O S Out B)
    (epochs : Nat) (batches : List B) (st0 : TrainState P G O S) :
    TrainState P G O S × List ℚ :=
  match epochs with
  | 0 => (st0, [])
  | k + 1 =>
    let r := runEpoch tp batches st0
    let rest := trainLoop tp k batches r.1
    (rest.1, r.2 :: rest.2)

/-- The per-batch losses of one epoch, in batch order. -/
def batchLosses {P G O S Out B : Type} (tp : TorchPrims P G O S Out B)
    (batches : List B) (st : TrainState P G O S) : List ℚ :=
  match batches with
  | [] => []
  | b :: bs =>
    let r := batchStep tp st b
    r.2 :: batchLosses tp bs r.1

theorem runBatches_foldl {P G O S Out B : Type} (tp : TorchPrims P G O S Out B) :
    ∀ (batches : List B) (st : TrainState P G O S) (a : ℚ),
    (batches.foldl (fun acc b =>
      let r := batchStep tp acc.1 b
      (r.1, acc.2 + r.2)) (st, a)).2 = a + (batchLosses tp batches st).sum := by
  intro batches
  induction batches with
  | nil => intro st a; simp [batchLosses]
  | cons b bs ih =>
    intro st a
    rw [List.foldl_cons, batchLosses]
    rw [ih]
    rw [List.sum_cons]
    ring

theorem trainLoop_length {P G O S Out B : Type} (tp : TorchPrims P G O S Out B)
    (batches : List B) :
    ∀ (n : Nat) (st : TrainState P G O S), (trainLoop tp n batches st).2.length = n := by
  intro n
  induction n with
  | zero => intro st; rfl
  | succ k ih => intro st; rw [trainLoop]; simp [ih]

theorem trainLoop_state {P G O S Out B : Type} (tp : TorchPrims P G O S Out B)
    (batches : List B) :
    ∀ (n : Nat) (st : TrainState P G O S),
    (trainLoop tp n batches st).1 = (fun s2 => (runEpoch tp batches s2).1)^[n] st := by
  intro n
  induction n with
  | zero => intro st; rfl
  | succ k ih =>
    intro st
    rw [trainLoop, Function.iterate_succ_apply]
    exact ih ((runEpoch tp batches st).1)

theorem trainLoop_losses {P G O S Out B : Type} (tp : TorchPrims P G O S Out B)
    (batches : List B) :
    ∀ (n k : Nat) (st : TrainState P G O S), k < n →
    (trainLoop tp n batches st).2.getD k 0 =
      (batchLosses tp batches ((fun s2 => (runEpoch tp batches s2).1)^[k] st)).sum := by
  intro n
  induction n with
  | zero => intro k st hk; omega
  | succ m ih =>
    intro k st hk
    rw [trainLoop]
    cases k with
    | zero =>
      simp only [Function.iterate_zero_apply, List.getD_cons_zero, runEpoch, runBatches]
      rw [runBatches_foldl]
      ring
    | succ k2 =>
      simp only [List.getD, List.getElem?_cons_succ]
      have := ih k2 ((runEpoch tp batches st).1) (by omega)
      rw [Function.iterate_succ_apply]
      simpa [List.getD] using this

/-- C4: the training loop runs exactly `num_epochs = 1000` epochs with no
early stopping (the iteration count and structure hold for every choice
of framework primitives, so no loss value can end the loop); every epoch
ends with exactly one scheduler step (the final state is the 1000-fold
iterate of `runEpoch`, which applies `schedStep` once after its batch
fold); and exactly one aggregate loss — the sum of that epoch's batch
losses — is appended per epoch, so `len(losses) = num_epochs`. -/
theorem training_loop_spec {P G O S Out B : Type} (tp : TorchPrims P G O S Out B)
    (batches : List B) (st0 : TrainState P G O S) :
    num_epochs = 1000 ∧
    (trainLoop tp num_epochs batches st0).2.length = num_epochs ∧
    (trainLoop tp num_epochs batches st0).1 =
      (fun s2 => (runEpoch tp batches s2).1)^[num_epochs] st0 ∧
    (∀ k, k < num_epochs →
      (trainLoop tp num_epochs batches st0).2.getD k 0 =
        (batchLosses tp batches ((fun s2 => (runEpoch tp batches s2).1)^[k] st0)).sum) ∧
    (∀ st : TrainState P G O S, (runBatches tp batches st).2 =
      (batchLosses tp batches st).sum) :=
  ⟨rfl,
   trainLoop_length tp batches num_epochs st0,
   trainLoop_state tp batches num_epochs st0,
   fun k hk => trainLoop_losses tp batches num_epochs k st0 hk,
   fun st => by rw [runBatches, runBatches_foldl]; ring⟩

/-- Trivial framework instantiation for the witness. -/
def trivialTP : TorchPrims Unit Unit Unit Unit Unit Unit :=
  ⟨fun _ => (), fun _ _ => (), fun _ _ => 0, fun _ _ _ => (), fun _ _ _ => ((), ()),
   fun _ _ => ((), ())⟩

def trivialState : TrainState Unit Unit Unit Unit := ⟨(), (), (), ()⟩

/-- C4 witness: the loss recorded for the first epoch of a run with no
batches is the empty sum. -/
theorem training_loop_spec_witness :
    (trainLoop trivialTP num_epochs ([] : List Unit) trivialState).2.getD 0 0 =
      (batchLosses trivialTP []
        ((fun s2 => (runEpoch trivialTP [] s2).1)^[0] trivialState)).sum :=
  (training_loop_spec trivialTP [] trivialState).2.2.2.1 0 (by decide)

/-- The load loop `for line in file: jsons.append(json.loads(line))`: one
parsed value per line of the (decompressed) file, in order.  The gzip
decompression and the JSON grammar live in libraries; `parse` abstracts
`json.loads` and `lines` the decompressed line sequence. -/
def loadJsons (parse : PyStr → J) (lines : List PyStr) : List J :=
  lines.map parse

/-- `data = jsons[0]` — `IndexError` when the file has no line. -/
def firstJson (parse : PyStr → J) (lines : List PyStr) : Except PyErr J :=
  match loadJsons parse lines with
  | [] => .error .indexError
  | d :: _ => .ok d

/-- C6: the loader parses every line as one JSON value (one entry of
`jsons` per line), and all subsequent processing uses only the value
parsed from the first line — `data` is `parse` of the first line and is
unchanged by whatever follows it. -/
theorem loader_first_line_only (parse : PyStr → J) (l : PyStr)
    (rest rest2 : List PyStr) :
    (loadJsons parse (l :: rest)).length = (l :: rest).length ∧
    firstJson parse (l :: rest) = .ok (parse l) ∧
    firstJson parse (l :: rest) = firstJson parse (l :: rest2) := by
  refine ⟨by simp [loadJsons], rfl, rfl⟩

/-- The train/test split of the notebook: `indices` is the shuffled
permutation, the first `5 * n // 6` of it train, the rest test. -/
def trainTestSplit (perm : List Nat) : List Nat × List Nat :=
  (perm.take (5 * perm.length / 6), perm.drop (5 * perm.length / 6))

/-- C9: for every shuffle (any permutation of `0 .. n-1`, which is what
`np.random.permutation(n)` returns), the split partitions the retained
rows: train and test are disjoint, together they are a permutation of
`0 .. n-1`, the train part has exactly `⌊5n/6⌋` rows, the test part the
remaining `n - ⌊5n/6⌋`, and every row index lands in at least one part —
hence, with disjointness, in exactly one. -/
theorem train_test_split_partitions (n : Nat) (perm : List Nat)
    (h : perm.Perm (List.range n)) :
    (trainTestSplit perm).1.length = 5 * n / 6 ∧
    (trainTestSplit perm).2.length = n - 5 * n / 6 ∧
    ((trainTestSplit perm).1 ++ (trainTestSplit perm).2).Perm (List.range n) ∧
    (∀ i, i ∈ (trainTestSplit perm).1 → i ∉ (trainTestSplit perm).2) ∧
    (∀ i, i < n → i ∈ (trainTestSplit perm).1 ∨ i ∈ (trainTestSplit perm).2) := by
  have hlen : perm.length = n := by rw [h.length_eq, List.length_range]
  have hle : 5 * n / 6 ≤ n := by
    have h1 : 5 * n ≤ 6 * n := by omega
    have h2 : 5 * n / 6 ≤ 6 * n / 6 := Nat.div_le_div_right h1
    rwa [Nat.mul_div_cancel_left n (by norm_num : 0 < 6)] at h2
  have happ : (trainTestSplit perm).1 ++ (trainTestSplit perm).2 = perm := by
    rw [trainTestSplit]
    exact List.take_append_drop _ perm
  have hnd : perm.Nodup := h.nodup_iff.mpr (List.nodup_range n)
  refine ⟨?_, ?_, ?_, ?_, ?_⟩
  · rw [trainTestSplit]
    simp [List.length_take, hlen, Nat.min_eq_left hle]
  · rw [trainTestSplit]
    simp [List.length_drop, hlen]
  · rw [happ]; exact h
  · intro i hi1 hi2
    have : ((trainTestSplit perm).1 ++ (trainTestSplit perm).2).Nodup := by
      rw [happ]; exact hnd
    obtain ⟨-, -, hdisj⟩ := List.nodup_append.mp this
    exact hdisj hi1 hi2
  · intro i hi
    have : i ∈ perm := h.mem_iff.mpr (List.mem_range.mpr hi)
    rw [← happ] at this
    exact List.mem_append.mp this

/-- C9 witness: a concrete permutation of three rows. -/
theorem train_test_split_partitions_witness :
    (trainTestSplit [2, 0, 1]).1.length = 5 * 3 / 6 ∧
    (trainTestSplit [2, 0, 1]).2.length = 3 - 5 * 3 / 6 ∧
    ((trainTestSplit [2, 0, 1]).1 ++ (trainTestSplit [2, 0, 1]).2).Perm (List.range 3) ∧
    (∀ i, i ∈ (trainTestSplit [2, 0, 1]).1 → i ∉ (trainTestSplit [2, 0, 1]).2) ∧
    (∀ i, i < 3 → i ∈ (trainTestSplit [2, 0, 1]).1 ∨ i ∈ (trainTestSplit [2, 0, 1]).2) :=
  train_test_split_partitions 3 [2, 0, 1] (by decide)
